import Mathlib

/-!
Verification development for the dMRI motion-correction pipeline of
`src/scripts/sct_dmri_moco.py` (spinalcordtoolbox).

The pipeline's data is shallowly embedded:
* the gradient table (`bvecs`) is a list of rows of rational numbers
  (Python floats are modelled as `ℚ`);
* the per-`(time_index, slice_index)` transform files living in directories
  such as `mat_final/` and `mat_b0groups/` are modelled as a state
  `Mat := ℕ → ℕ → Option MatName`, where `MatName` records which registration
  estimate a file currently holds, and the `cp`/`mv` shell loops of the script
  become folds of point updates over that state;
* the three invocations of the external registration engine (`moco.moco`)
  are modelled by the parameter records the script passes them.

Every definition is translated directly from the Python source; line numbers
refer to `src/scripts/sct_dmri_moco.py`.
-/

namespace SctDmriMoco

/-! ## Volume classifier (lines 237-283) -/

/-- Line 258: `math.sqrt(math.fsum([i**2 for i in bvecs[it]])) < 0.01`.
Since both sides are nonnegative, the square-root comparison is equivalent to
comparing the sum of squares with `0.01² = 1/10000`; the embedding stays in `ℚ`
by using the squared form (the equivalence with the `Real.sqrt` form is proved
in `sumSq_sqrt_iff` below). -/
def isB0 (v : List ℚ) : Bool :=
  decide ((v.map (fun x => x ^ 2)).sum < 1 / 10000)

/-- Length of the shortest row, i.e. the number of tuples Python's `zip(*m)`
produces. `zip` of no arguments yields the empty list. -/
def minRowLen : List (List ℚ) → ℕ
  | [] => 0
  | [r] => r.length
  | r :: rest => min r.length (minRowLen rest)

/-- Line 251: `bvecs = zip(*bvecs)`. Python's `zip` truncates every row to the
length of the shortest one; on a rectangular table this is the transpose. -/
def pyZipStar (m : List (List ℚ)) : List (List ℚ) :=
  (List.range (minRowLen m)).map (fun j => m.map (fun row => row.getD j 0))

/-- Lines 246-251: if the first row does not have width 3 the script warns and
transposes the table; there is no failure branch. The resulting table is the
one the classification loop reads. -/
def effBvecs (bvecs : List (List ℚ)) : List (List ℚ) :=
  if (bvecs.headD []).length = 3 then bvecs else pyZipStar bvecs

/-- Lines 255-261: `index_b0` collects, in increasing order, the time indices
`it < nt` whose gradient vector has norm below 0.01. -/
def index_b0 (bvecs : List (List ℚ)) (nt : ℕ) : List ℕ :=
  (List.range nt).filter (fun it => isB0 ((effBvecs bvecs).getD it []))

/-- Lines 255-261: `index_dwi` collects the remaining time indices, in
increasing order. -/
def index_dwi (bvecs : List (List ℚ)) (nt : ℕ) : List ℕ :=
  (List.range nt).filter (fun it => !isB0 ((effBvecs bvecs).getD it []))

/-- Observable outcome of the vector-form classification step, including
whether the warn-and-transpose branch (lines 248-251) ran.  The
`malformedGradientTable` outcome exists so the specification's claimed error
behaviour is statable; the source has no code path producing it. -/
inductive ClassifierOutcome where
  | ok (index_b0 index_dwi : List ℕ) (transposed : Bool)
  | malformedGradientTable
  deriving DecidableEq

/-- Lines 246-261 as one function: check the first row's width, transpose if it
is not 3 (issuing only a warning), then classify. -/
def classifyOutcome (bvecs : List (List ℚ)) (nt : ℕ) : ClassifierOutcome :=
  if (bvecs.headD []).length = 3 then
    ClassifierOutcome.ok (index_b0 bvecs nt) (index_dwi bvecs nt) false
  else
    ClassifierOutcome.ok (index_b0 bvecs nt) (index_dwi bvecs nt) true

/-! ## Scalar (bvals) classifier branch (lines 267-283)

The script is Python 2 and `bvals` is a plain list of lists of floats.  In the
expression `np.where(bvals > 429 and bvals < 4000)` the comparisons compare a
*list* against an *int*: CPython 2 orders values of different types with
numbers below every non-numeric object, so `bvals > 429` is the constant
`True` and `bvals < 4000` the constant `False`, independently of the table's
contents.  `np.where` applied to a scalar boolean returns the index array
`[0]` for `True` and `[]` for `False`.  The following constant functions are
the faithful embedding of those Python 2 comparisons. -/

/-- Python 2: `list > int` is always `True` (type-based ordering). -/
def py2_listGtInt (_bvals : List (List ℚ)) (_n : ℤ) : Bool := true

/-- Python 2: `list < int` is always `False`. -/
def py2_listLtInt (_bvals : List (List ℚ)) (_n : ℤ) : Bool := false

/-- Python 2: `list <= int` is always `False`. -/
def py2_listLeInt (_bvals : List (List ℚ)) (_n : ℤ) : Bool := false

/-- Python 2: `list >= int` is always `True`. -/
def py2_listGeInt (_bvals : List (List ℚ)) (_n : ℤ) : Bool := true

/-- `np.where` on a scalar boolean condition: the nonzero "indices" of a 0-d
array, i.e. `[0]` when the condition is true and `[]` otherwise. -/
def np_where_scalarBool (b : Bool) : List ℕ := if b then [0] else []

/-- Line 278: `index_b0 = np.where(bvals > 429 and bvals < 4000)`.
`and` returns its second operand because the first is truthy. -/
def scalar_index_b0 (bvals : List (List ℚ)) : List ℕ :=
  np_where_scalarBool (py2_listGtInt bvals 429 && py2_listLtInt bvals 4000)

/-- Line 279: `index_dwi = np.where(bvals <= 429 or bvals >= 4000)`.
`or` returns its second operand because the first is falsy. -/
def scalar_index_dwi (bvals : List (List ℚ)) : List ℕ :=
  np_where_scalarBool (py2_listLeInt bvals 429 || py2_listGeInt bvals 4000)

/-! ## Group builder (lines 304-316) -/

/-- Lines 304-316: `nb_groups = floor(n_dwi / dwi_group_size)` slices
`index_dwi[iGroup*size : (iGroup+1)*size]`, plus, when `n_dwi mod size > 0`,
one extra group `index_dwi[n_dwi - remainder : n_dwi]`.  Python's slice
`l[a:b]` is `(l.drop a).take (b - a)`.  (For `dwi_group_size = 0` the Python
code would raise `ZeroDivisionError`; claims are stated for positive group
size.) -/
def group_indexes (index_dwi : List ℕ) (dwi_group_size : ℕ) : List (List ℕ) :=
  let n_dwi := index_dwi.length
  let nb_groups := n_dwi / dwi_group_size
  let base := (List.range nb_groups).map
    (fun iGroup => (index_dwi.drop (iGroup * dwi_group_size)).take dwi_group_size)
  let nb_remaining := n_dwi % dwi_group_size
  if nb_remaining > 0 then base ++ [index_dwi.drop (n_dwi - nb_remaining)] else base

/-! ## Target selection for the b0 registration pass (lines 363-371) -/

/-- Lines 365-371: the time index of the volume chosen as the b0-pass target.
`index_dwi[0]` on an empty list and an out-of-range `index_b0[...]` raise
`IndexError` in Python; both are modelled by `none`.
When `index_dwi[0] != 0` the code reads `index_b0[index_dwi[0] - 1]` — note
the subscript indexes *into the list* `index_b0`, it is not the time index
itself — and otherwise it reads `index_b0[0]`. -/
def b0PassTarget (index_b0 index_dwi : List ℕ) : Option ℕ :=
  match index_dwi.head? with
  | none => none
  | some d => if d ≠ 0 then index_b0[d - 1]? else index_b0[0]?

/-! ## Transform-file state (lines 378-404)

The script stores one text file per `(time_index, slice_index)` pair in a
directory (`mat_final/`, `mat_b0groups/` …).  A directory is modelled as a
function from the two indices to the file's current content (`none` = no such
file).  A file's content is identified by the registration estimate it
carries: `dwigroup g z` for the DWI-group pass output `mat_dwigroups/mat.T<g>_Z<z>.txt`
and `b0group r z` for the b0 pass output `mat_b0groups/mat.T<r>_Z<z>.txt`. -/

/-- Content of a transform file, named after the registration estimate that
produced it. -/
inductive MatName where
  | dwigroup (g z : ℕ)
  | b0group (r z : ℕ)
  deriving DecidableEq

/-- A transform directory: `(time_index, slice_index) ↦ file content`. -/
def Mat : Type := ℕ → ℕ → Option MatName

/-- Point update of a directory (the effect of writing one file). -/
def write (m : Mat) (t z : ℕ) (v : Option MatName) : Mat :=
  fun t' z' => if t' = t ∧ z' = z then v else m t' z'

/-- The freshly created, empty `mat_final/` directory (line 381). -/
def emptyMat : Mat := fun _ _ => none

/-- Line 386 inner loop over `i_Z`: copy
`mat_dwigroups/mat.T<g>_Z<z>.txt` to `mat_final/mat.T<t>_Z<z>.txt` for every
`z < nz`.  The source directory `mat_dwigroups` is never modified, so the
copied value is `dwigroup g z` directly. -/
def writeRowG (m : Mat) (g t nz : ℕ) : Mat :=
  (List.range nz).foldl (fun acc z => write acc t z (some (MatName.dwigroup g z))) m

/-- Lines 384-386: loop over the members of group `g`. -/
def expandGroup (nz g : ℕ) (idxs : List ℕ) (m : Mat) : Mat :=
  idxs.foldl (fun acc t => writeRowG acc g t nz) m

/-- Lines 383-386: the full group-expansion loop
`for iGroup in range(nb_groups): for dwi in …: for i_Z in range(nz): cp …`. -/
def expandGroups (nz : ℕ) (groups : List (List ℕ)) (m : Mat) : Mat :=
  groups.enum.foldl (fun acc gi => expandGroup nz gi.1 gi.2 acc) m

/-- `np.argmin` on a list of naturals: position of the first occurrence of the
minimum (0 on the empty list, where NumPy raises instead). -/
def argminList : List ℕ → ℕ
  | [] => 0
  | [_] => 0
  | a :: b :: rest =>
    if a ≤ (b :: rest).getD (argminList (b :: rest)) 0 then 0
    else argminList (b :: rest) + 1

/-- `l[len(l)-1]`, the last element as the script fetches it (line 388). -/
def lastIndex (l : List ℕ) : ℕ := l.getD (l.length - 1) 0

/-- `np.abs` of the difference of two (nonnegative) indices. -/
def idxDist (a b : ℕ) : ℕ := ((a : ℤ) - (b : ℤ)).natAbs

/-- Line 388: `index = np.argmin(np.abs(np.array(index_dwi) - index_b0[len(index_b0)-1]))` —
the position, within `index_dwi`, of the DWI time index closest to the *last
b0* time index. -/
def bridgeArg (index_b0 index_dwi : List ℕ) : ℕ :=
  argminList (index_dwi.map (fun e => idxDist e (lastIndex index_b0)))

/-- `index_dwi[index]` for the `index` of line 388: the DWI time index whose
transform the bridging loop copies. -/
def codeBridgeSource (index_b0 index_dwi : List ℕ) : ℕ :=
  index_dwi.getD (bridgeArg index_b0 index_dwi) 0

/-- Stated from the specification's words for claim C1 only (not from the
code): "the b0 time index whose position is nearest (by index distance) to
the last element of dwi_indices", with `np.argmin`-style first-minimum
tie-breaking.  Used to compare the specification's bridging rule against the
code's. -/
def specBridgeSource (index_b0 index_dwi : List ℕ) : ℕ :=
  index_b0.getD (argminList (index_b0.map (fun e => idxDist e (lastIndex index_dwi)))) 0

/-- Lines 390-391 inner loop over `i_Z`: copy
`mat_final/mat.T<src>_Z<z>.txt` to `mat_final/mat.T<t>_Z<z>.txt`.  Source and
destination are in the *same* directory, so each copy reads the current
state. -/
def copyRow (m : Mat) (t src nz : ℕ) : Mat :=
  (List.range nz).foldl (fun acc z => write acc t z (acc src z)) m

/-- Lines 388-391: the b0-bridging loop — copy the transform of the DWI time
index selected on line 388 onto every b0 time index, for all slices. -/
def bridgeB0 (nz : ℕ) (index_b0 index_dwi : List ℕ) (m : Mat) : Mat :=
  let src := codeBridgeSource index_b0 index_dwi
  index_b0.foldl (fun acc t => copyRow acc t src nz) m

/-! ## Renaming of the b0-pass matrices (lines 393-399) -/

/-- The `mat_b0groups/` directory as the b0 registration pass leaves it:
one file `mat.T<r>_Z<z>.txt` per rank `r < nt1` and slice `z < nz1`, holding
the transform estimated for rank `r` (the b0 pass is keyed by the position of
the volume within `index_b0`, not by absolute time index). -/
def b0StageInit (nt1 nz1 : ℕ) : Mat :=
  fun r z => if r < nt1 ∧ z < nz1 then some (MatName.b0group r z) else none

/-- Line 399 inner loop over `iZ`: `mv mat.T<srcT>_Z<z>.txt mat.T<dstT>_Z<z>.txt`
for every `z < nz1`.  `mv` reads the source, deletes it, and overwrites the
destination. -/
def mvRow (m : Mat) (srcT dstT nz1 : ℕ) : Mat :=
  (List.range nz1).foldl
    (fun acc z => write (write acc srcT z none) dstT z (acc srcT z)) m

/-- Lines 396-399: `for iT in range(nt1): if iT != index_b0[iT]: mv …` — the
sequential, in-place renaming of rank-keyed files to time-index-keyed files.
`nt1` and `nz1` are the file counts globbed on lines 394-395 *before* the
loop starts. -/
def renameB0 (nt1 nz1 : ℕ) (index_b0 : List ℕ) (m : Mat) : Mat :=
  (List.range nt1).foldl
    (fun acc iT =>
      if iT ≠ index_b0.getD iT 0 then mvRow acc iT (index_b0.getD iT 0) nz1 else acc) m

/-! ## Orchestration-level control flow for the zero-DWI case (lines 340-376) -/

/-- Externally visible orchestration events relevant to the zero-DWI claim.
`configError` exists so the specification's claimed behaviour ("raises
`ConfigurationError` before attempting any registration") is statable; the
script contains no such check and no code path produces it. -/
inductive Event where
  | dwiGroupRegistration
  | b0Registration
  | pythonIndexError
  | configError
  deriving DecidableEq

/-- Lines 353-376 in statement order.  The estimation call on the merged DWI
group averages (`moco.moco(param)`, line 361) runs unconditionally — there is
no `n_dwi == 0` guard anywhere in the script.  Line 365 then reads
`index_dwi[0]`, which raises an uncaught `IndexError` when `index_dwi` is
empty; otherwise the b0-pass registration (line 376) runs.  (With zero DWI
volumes the upstream `fslmerge` calls of lines 340-351 would also fail, but
that is a collaborator failure, again not a `ConfigurationError` raised by
this script.) -/
def dmri_moco_events (bvecs : List (List ℚ)) (nt : ℕ) : List Event :=
  Event.dwiGroupRegistration ::
    (match index_dwi bvecs nt with
     | [] => [Event.pythonIndexError]
     | _ :: _ => [Event.b0Registration])

/-! ## Interpolation routing of the three engine invocations -/

/-- The fields of the global `param` object that the three `moco.moco`
invocations read. -/
structure MocoParam where
  fname_data : String
  fname_target : String
  path_out : String
  todo : String
  mat_moco : String
  mat_final : String
  interp : String
  deriving DecidableEq

/-- Lines 219-223 and 353-424: the parameter records passed to the three
`moco.moco` calls, in order.  Line 223 saves the user-configured
interpolation kind into the local `interp` before the pipeline overwrites
`param.interp`; lines 360 and 375 set `param.interp = 'trilinear'` for the
two estimation passes; line 423 restores `param.interp = interp` for the
final apply-only pass.  The b0-pass target filename (lines 365-371, modelled
numerically by `b0PassTarget`) is threaded in as `b0_target`. -/
def dmri_moco_calls (param : MocoParam) (file_dwi b0_target fname_data_initial : String) :
    List MocoParam :=
  let interp := param.interp
  let pA := { param with
    fname_data := "dwi_averaged_groups.nii"
    fname_target := file_dwi ++ "_mean_0"
    path_out := ""
    todo := "estimate_and_apply"
    mat_moco := "mat_dwigroups"
    interp := "trilinear" }
  let pB := { pA with
    fname_data := "b0.nii"
    fname_target := b0_target
    path_out := ""
    todo := "estimate_and_apply"
    mat_moco := "mat_b0groups"
    interp := "trilinear" }
  let pC := { pB with
    fname_data := fname_data_initial
    fname_target := "b0"
    path_out := ""
    mat_final := "mat_final/"
    todo := "apply"
    interp := interp }
  [pA, pB, pC]

/-! ## Helper lemmas: `argminList` -/

lemma argminList_lt_length : ∀ (l : List ℕ), l ≠ [] → argminList l < l.length := by
  intro l
  induction l with
  | nil => intro h; exact absurd rfl h
  | cons a rest ih =>
    intro _
    cases rest with
    | nil => simp [argminList]
    | cons b tl =>
      have hlt := ih (by simp)
      rw [show argminList (a :: b :: tl)
          = if a ≤ (b :: tl).getD (argminList (b :: tl)) 0 then 0
            else argminList (b :: tl) + 1 from rfl]
      split
      · simp
      · simp only [List.length_cons] at hlt ⊢
        omega

lemma argminList_min : ∀ (l : List ℕ) (i : ℕ), i < l.length →
    l.getD (argminList l) 0 ≤ l.getD i 0 := by
  intro l
  induction l with
  | nil => intro i hi; simp at hi
  | cons a rest ih =>
    intro i hi
    cases rest with
    | nil =>
      simp only [List.length_cons, List.length_nil] at hi
      interval_cases i
      · simp [argminList]
    | cons b tl =>
      rw [show argminList (a :: b :: tl)
          = if a ≤ (b :: tl).getD (argminList (b :: tl)) 0 then 0
            else argminList (b :: tl) + 1 from rfl]
      by_cases hle : a ≤ (b :: tl).getD (argminList (b :: tl)) 0
      · rw [if_pos hle]
        cases i with
        | zero => simp
        | succ n =>
          have hn : n < (b :: tl).length := by simpa using hi
          have := ih n hn
          simp only [List.getD_cons_zero, List.getD_cons_succ]
          exact le_trans hle this
      · rw [if_neg hle]
        cases i with
        | zero =>
          simp only [List.getD_cons_zero, List.getD_cons_succ]
          omega
        | succ n =>
          have hn : n < (b :: tl).length := by simpa using hi
          have := ih n hn
          simpa using this

lemma getD_map_lt {α β : Type} (f : α → β) (l : List α) (i : ℕ) (hi : i < l.length)
    (d : α) (dv : β) : (l.map f).getD i dv = f (l.getD i d) := by
  induction l generalizing i with
  | nil => simp at hi
  | cons a tl ih =>
    cases i with
    | zero => rfl
    | succ n =>
      simp only [List.map_cons, List.getD_cons_succ]
      exact ih n (by simpa using hi)

lemma getD_mem_of_lt (l : List ℕ) (i : ℕ) (hi : i < l.length) (d : ℕ) : l.getD i d ∈ l := by
  rw [List.getD_eq_getElem l d hi]
  exact l.getElem_mem hi

/-- The DWI index selected on line 388 is a member of `index_dwi`. -/
lemma codeBridgeSource_mem (b0 dwi : List ℕ) (h : dwi ≠ []) :
    codeBridgeSource b0 dwi ∈ dwi := by
  have hmap : (dwi.map (fun e => idxDist e (lastIndex b0))) ≠ [] := by
    simpa using h
  have hlt := argminList_lt_length _ hmap
  rw [List.length_map] at hlt
  exact getD_mem_of_lt dwi _ hlt 0

/-- The DWI index selected on line 388 minimises the index distance to the
last b0 index over all of `index_dwi`. -/
lemma codeBridgeSource_min (b0 dwi : List ℕ) (h : dwi ≠ []) :
    ∀ e ∈ dwi, idxDist (codeBridgeSource b0 dwi) (lastIndex b0) ≤ idxDist e (lastIndex b0) := by
  intro e he
  obtain ⟨i, hi, rfl⟩ := List.getElem_of_mem he
  have hmap : (dwi.map (fun x => idxDist x (lastIndex b0))) ≠ [] := by simpa using h
  have harg := argminList_lt_length _ hmap
  rw [List.length_map] at harg
  have hmin := argminList_min (dwi.map (fun x => idxDist x (lastIndex b0))) i
    (by rw [List.length_map]; exact hi)
  rw [getD_map_lt _ dwi _ harg 0 0, getD_map_lt _ dwi i hi 0 0,
    List.getD_eq_getElem dwi 0 hi] at hmin
  simpa [codeBridgeSource, bridgeArg] using hmin

/-! ## Helper lemmas: the transform-directory folds -/

lemma writeRowG_step (m : Mat) (g t n : ℕ) :
    writeRowG m g t (n + 1)
      = write (writeRowG m g t n) t n (some (MatName.dwigroup g n)) := by
  rw [writeRowG, List.range_succ, List.foldl_append]
  rfl

lemma writeRowG_apply (m : Mat) (g t nz t' z' : ℕ) :
    writeRowG m g t nz t' z'
      = if t' = t ∧ z' < nz then some (MatName.dwigroup g z') else m t' z' := by
  induction nz generalizing m t' z' with
  | zero => simp [writeRowG]
  | succ n ih =>
    rw [writeRowG_step]
    show (if t' = t ∧ z' = n then some (MatName.dwigroup g n) else writeRowG m g t n t' z') = _
    rw [ih]
    by_cases h1 : t' = t
    · subst h1
      by_cases h2 : z' = n
      · subst h2; simp
      · have hiff : (z' < n + 1) ↔ (z' < n) := by omega
        simp [h2, hiff]
    · simp [h1]

lemma expandGroup_apply (nz g : ℕ) (idxs : List ℕ) (m : Mat) (t' z' : ℕ) :
    expandGroup nz g idxs m t' z'
      = if t' ∈ idxs ∧ z' < nz then some (MatName.dwigroup g z') else m t' z' := by
  induction idxs generalizing m with
  | nil => simp [expandGroup]
  | cons t0 rest ih =>
    rw [expandGroup, List.foldl_cons,
      show ∀ acc : Mat, rest.foldl (fun acc t => writeRowG acc g t nz) acc
        = expandGroup nz g rest acc from fun _ => rfl]
    rw [ih, writeRowG_apply]
    by_cases h1 : t' ∈ rest <;> by_cases h2 : z' < nz <;> by_cases h3 : t' = t0 <;>
      simp [h1, h2, h3]

lemma expandPairs_not_mem (nz : ℕ) (pairs : List (ℕ × List ℕ)) (m : Mat) (t' z' : ℕ)
    (ht : ∀ p ∈ pairs, t' ∉ p.2) :
    (pairs.foldl (fun acc gi => expandGroup nz gi.1 gi.2 acc) m) t' z' = m t' z' := by
  induction pairs generalizing m with
  | nil => rfl
  | cons p rest ih =>
    rw [List.foldl_cons, ih _ (fun q hq => ht q (List.mem_cons_of_mem p hq)),
      expandGroup_apply]
    have := ht p (List.mem_cons_self p rest)
    simp [this]

lemma expandPairs_isSome (nz : ℕ) (pairs : List (ℕ × List ℕ)) (m : Mat) (t' z' : ℕ) :
    ((pairs.foldl (fun acc gi => expandGroup nz gi.1 gi.2 acc) m) t' z').isSome
      ↔ ((∃ p ∈ pairs, t' ∈ p.2) ∧ z' < nz) ∨ (m t' z').isSome := by
  induction pairs generalizing m with
  | nil => simp
  | cons p rest ih =>
    rw [List.foldl_cons, ih, expandGroup_apply]
    by_cases h1 : t' ∈ p.2 <;> by_cases h2 : z' < nz <;>
      simp [h1, h2]

/-- Group expansion (lines 383-386), looked up outside the groups: unchanged. -/
lemma expandGroups_not_mem (nz : ℕ) (groups : List (List ℕ)) (m : Mat) (t' z' : ℕ)
    (ht : ∀ g ∈ groups, t' ∉ g) : expandGroups nz groups m t' z' = m t' z' := by
  apply expandPairs_not_mem
  intro p hp
  exact ht p.2 (by simpa using List.mem_map_of_mem Prod.snd hp)

/-- Group expansion fills exactly the group members' rows up to slice `nz`. -/
lemma expandGroups_isSome (nz : ℕ) (groups : List (List ℕ)) (m : Mat) (t' z' : ℕ) :
    ((expandGroups nz groups m) t' z').isSome
      ↔ ((∃ g ∈ groups, t' ∈ g) ∧ z' < nz) ∨ (m t' z').isSome := by
  rw [expandGroups, expandPairs_isSome]
  constructor
  · rintro (⟨⟨p, hp, hmem⟩, hz⟩ | hm)
    · exact Or.inl ⟨⟨p.2, by simpa using List.mem_map_of_mem Prod.snd hp, hmem⟩, hz⟩
    · exact Or.inr hm
  · rintro (⟨⟨g, hg, hmem⟩, hz⟩ | hm)
    · have : g ∈ groups.enum.map Prod.snd := by rwa [List.enum_map_snd]
      obtain ⟨p, hp, hpg⟩ := List.mem_map.mp this
      exact Or.inl ⟨⟨p, hp, hpg ▸ hmem⟩, hz⟩
    · exact Or.inr hm

lemma copyRow_step (m : Mat) (t src n : ℕ) :
    copyRow m t src (n + 1)
      = write (copyRow m t src n) t n (copyRow m t src n src n) := by
  rw [copyRow, List.range_succ, List.foldl_append]
  rfl

lemma copyRow_apply (m : Mat) (t src nz : ℕ) (hne : src ≠ t) (t' z' : ℕ) :
    copyRow m t src nz t' z'
      = if t' = t ∧ z' < nz then m src z' else m t' z' := by
  induction nz generalizing m t' z' with
  | zero => simp [copyRow]
  | succ n ih =>
    rw [copyRow_step]
    show (if t' = t ∧ z' = n then copyRow m t src n src n else copyRow m t src n t' z') = _
    rw [ih, ih]
    have hsrc : ¬(src = t ∧ n < n) := by omega
    by_cases h1 : t' = t
    · subst h1
      by_cases h2 : z' = n
      · subst h2; simp [hsrc]
      · have hiff : (z' < n + 1) ↔ (z' < n) := by omega
        simp [h2, hiff]
    · simp [h1]

lemma copyRows_fold_apply (nz src : ℕ) (l : List ℕ) (m : Mat) (hsrc : src ∉ l) (t' z' : ℕ) :
    (l.foldl (fun acc t => copyRow acc t src nz) m) t' z'
      = if t' ∈ l ∧ z' < nz then m src z' else m t' z' := by
  induction l generalizing m with
  | nil => simp
  | cons t0 rest ih =>
    have hne : src ≠ t0 := fun h => hsrc (h ▸ List.mem_cons_self t0 rest)
    have hsrc' : src ∉ rest := fun h => hsrc (List.mem_cons_of_mem t0 h)
    rw [List.foldl_cons, ih _ hsrc']
    rw [copyRow_apply _ _ _ _ hne, copyRow_apply _ _ _ _ hne]
    have : ¬(src = t0 ∧ z' < nz) := fun h => hne h.1
    by_cases h1 : t' ∈ rest <;> by_cases h2 : z' < nz <;> by_cases h3 : t' = t0 <;>
      simp [h1, h2, h3, hne]

/-- The b0 bridging loop (lines 388-391): every b0 row becomes a copy of the
selected DWI row; every other entry is untouched. -/
lemma bridgeB0_apply (nz : ℕ) (b0 dwi : List ℕ) (m : Mat)
    (hsrc : codeBridgeSource b0 dwi ∉ b0) (t' z' : ℕ) :
    bridgeB0 nz b0 dwi m t' z'
      = if t' ∈ b0 ∧ z' < nz then m (codeBridgeSource b0 dwi) z' else m t' z' := by
  rw [bridgeB0]
  exact copyRows_fold_apply nz _ b0 m hsrc t' z'

/-! ## Helper lemmas: the classifier -/

lemma mem_index_b0 (bvecs : List (List ℚ)) (nt i : ℕ) :
    i ∈ index_b0 bvecs nt ↔ i < nt ∧ isB0 ((effBvecs bvecs).getD i []) = true := by
  simp [index_b0, List.mem_filter]

lemma mem_index_dwi (bvecs : List (List ℚ)) (nt i : ℕ) :
    i ∈ index_dwi bvecs nt ↔ i < nt ∧ isB0 ((effBvecs bvecs).getD i []) = false := by
  simp [index_dwi, List.mem_filter]

/-- The two index lists partition `0..nt-1` (spec §3, `IndexSet` invariant). -/
lemma index_partition (bvecs : List (List ℚ)) (nt i : ℕ) :
    (i ∈ index_b0 bvecs nt ∨ i ∈ index_dwi bvecs nt) ↔ i < nt := by
  rw [mem_index_b0, mem_index_dwi]
  cases h : isB0 ((effBvecs bvecs).getD i []) <;> simp [h]

lemma index_disjoint (bvecs : List (List ℚ)) (nt i : ℕ) (hb : i ∈ index_b0 bvecs nt) :
    i ∉ index_dwi bvecs nt := by
  rw [mem_index_b0] at hb
  rw [mem_index_dwi]
  exact fun hc => by rw [hb.2] at hc; exact absurd hc.2 (by simp)

lemma index_b0_pairwise (bvecs : List (List ℚ)) (nt : ℕ) :
    (index_b0 bvecs nt).Pairwise (· < ·) :=
  (List.pairwise_lt_range nt).sublist (List.filter_sublist _)

lemma index_dwi_pairwise (bvecs : List (List ℚ)) (nt : ℕ) :
    (index_dwi bvecs nt).Pairwise (· < ·) :=
  (List.pairwise_lt_range nt).sublist (List.filter_sublist _)

/-- Every time index below the first DWI index is classified b0. -/
lemma isB0_below_first_dwi (bvecs : List (List ℚ)) (nt d : ℕ)
    (hd : (index_dwi bvecs nt).head? = some d) :
    ∀ k < d, isB0 ((effBvecs bvecs).getD k []) = true := by
  intro k hk
  have hdmem : d ∈ index_dwi bvecs nt := by
    cases hdw : index_dwi bvecs nt with
    | nil => rw [hdw] at hd; simp at hd
    | cons x tl => rw [hdw] at hd; simp at hd; subst hd; exact List.mem_cons_self x tl
  have hdlt : d < nt := ((mem_index_dwi bvecs nt d).mp hdmem).1
  by_contra hfalse
  have hkmem : k ∈ index_dwi bvecs nt := by
    rw [mem_index_dwi]
    exact ⟨lt_trans hk hdlt, by simpa using hfalse⟩
  -- every member of the dwi list is ≥ its head
  have hge : d ≤ k := by
    cases hdw : index_dwi bvecs nt with
    | nil => rw [hdw] at hd; simp at hd
    | cons x tl =>
      rw [hdw] at hd
      simp only [List.head?_cons, Option.some.injEq] at hd
      subst hd
      have hpw := index_dwi_pairwise bvecs nt
      rw [hdw, List.pairwise_cons] at hpw
      rw [hdw] at hkmem
      rcases List.mem_cons.mp hkmem with h | h
      · omega
      · exact le_of_lt (hpw.1 k h)
  omega

/-- If the first DWI index is `d`, the b0 list starts with the literal prefix
`0, 1, …, d-1`. -/
lemma index_b0_prefix (bvecs : List (List ℚ)) (nt d : ℕ)
    (hd : (index_dwi bvecs nt).head? = some d) :
    ∃ tail, index_b0 bvecs nt = List.range d ++ tail := by
  have hdmem : d ∈ index_dwi bvecs nt := by
    cases hdw : index_dwi bvecs nt with
    | nil => rw [hdw] at hd; simp at hd
    | cons x tl => rw [hdw] at hd; simp at hd; subst hd; exact List.mem_cons_self x tl
  have hdlt : d < nt := ((mem_index_dwi bvecs nt d).mp hdmem).1
  have hsplit : List.range nt = List.range d ++ List.range' d (nt - d) := by
    rw [List.range_eq_range' , List.range_eq_range']
    have h := List.range'_append_1 0 d (nt - d)
    rw [Nat.zero_add] at h
    rw [h]
    congr 1
    omega
  refine ⟨(List.range' d (nt - d)).filter (fun it => isB0 ((effBvecs bvecs).getD it [])), ?_⟩
  rw [index_b0, hsplit, List.filter_append]
  congr 1
  rw [List.filter_eq_self]
  intro a ha
  have : a < d := List.mem_range.mp ha
  simpa using isB0_below_first_dwi bvecs nt d hd a this

/-! ## Helper lemmas: the group builder -/

lemma join_chunks (l : List ℕ) (gs : ℕ) : ∀ k,
    ((List.range k).map (fun i => (l.drop (i * gs)).take gs)).flatten = l.take (k * gs) := by
  intro k
  induction k with
  | zero => simp
  | succ n ih =>
    rw [List.range_succ, List.map_append, List.flatten_append]
    simp only [List.map_cons, List.map_nil, List.flatten_cons, List.flatten_nil,
      List.append_nil]
    rw [ih, Nat.succ_mul, List.take_add]

/-- Concatenating the groups of lines 304-316 restores `index_dwi` exactly. -/
lemma group_indexes_flatten (l : List ℕ) (gs : ℕ) (_hgs : 0 < gs) :
    (group_indexes l gs).flatten = l := by
  rw [group_indexes]
  by_cases hr : l.length % gs > 0
  · simp only [hr, if_true]
    rw [List.flatten_append, join_chunks]
    simp only [List.flatten_cons, List.flatten_nil, List.append_nil]
    have hmod : l.length - l.length % gs = l.length / gs * gs := by
      have h1 := Nat.div_add_mod l.length gs
      have h2 : gs * (l.length / gs) = l.length / gs * gs := Nat.mul_comm gs (l.length / gs)
      omega
    rw [hmod, List.take_append_drop]
  · simp only [hr, if_false]
    rw [join_chunks]
    have hdvd : gs ∣ l.length := Nat.dvd_of_mod_eq_zero (by omega)
    rw [Nat.div_mul_cancel hdvd, List.take_length]

lemma group_indexes_mem_flatten (l : List ℕ) (gs : ℕ) (hgs : 0 < gs) (t : ℕ) :
    (∃ g ∈ group_indexes l gs, t ∈ g) ↔ t ∈ l := by
  conv_rhs => rw [← group_indexes_flatten l gs hgs]
  rw [List.mem_flatten]

lemma group_indexes_getD_lt (l : List ℕ) (gs i : ℕ) (hi : i < l.length / gs) :
    (group_indexes l gs).getD i [] = (l.drop (i * gs)).take gs := by
  rw [group_indexes]
  have hlen : ((List.range (l.length / gs)).map
      (fun iG => (l.drop (iG * gs)).take gs)).length = l.length / gs := by
    rw [List.length_map, List.length_range]
  have hbase : ((List.range (l.length / gs)).map
      (fun iG => (l.drop (iG * gs)).take gs)).getD i [] = (l.drop (i * gs)).take gs := by
    rw [List.getD_eq_getElem _ _ (by rw [hlen]; exact hi)]
    simp
  by_cases hr : l.length % gs > 0
  · simp only [hr, if_true]
    rw [List.getD_eq_getElem?_getD, List.getElem?_append_left (by rw [hlen]; exact hi),
      ← List.getD_eq_getElem?_getD]
    exact hbase
  · simp only [hr, if_false]
    exact hbase

lemma group_indexes_getD_rem (l : List ℕ) (gs : ℕ) (hr : l.length % gs > 0) :
    (group_indexes l gs).getD (l.length / gs) [] = l.drop (l.length - l.length % gs) := by
  rw [group_indexes]
  have hlen : ((List.range (l.length / gs)).map
      (fun iG => (l.drop (iG * gs)).take gs)).length = l.length / gs := by
    rw [List.length_map, List.length_range]
  simp only [hr, if_true]
  rw [List.getD_eq_getElem?_getD, List.getElem?_append_right (by rw [hlen]), hlen]
  simp

lemma full_group_length (l : List ℕ) (gs i : ℕ) (hi : i < l.length / gs) :
    ((l.drop (i * gs)).take gs).length = gs := by
  have h2 : (i + 1) * gs ≤ l.length / gs * gs := Nat.mul_le_mul_right gs hi
  have h3 := Nat.div_mul_le_self l.length gs
  have h4 : (i + 1) * gs = i * gs + gs := by ring
  rw [List.length_take, List.length_drop]
  omega

/-! ## Concrete gradient tables used as witnesses

`scnBvecs` is end-to-end scenario 1 of the specification: T = 10 volumes, b0
at time indices 0, 4 and 9, DWI elsewhere. -/

def scnBvecs : List (List ℚ) :=
  [[0,0,0],[1,0,0],[1,0,0],[1,0,0],[0,0,0],[1,0,0],[1,0,0],[1,0,0],[1,0,0],[0,0,0]]

lemma scn_index_b0 : index_b0 scnBvecs 10 = [0, 4, 9] := by
  norm_num [index_b0, scnBvecs, effBvecs, isB0, List.range_succ, List.filter_append]

lemma scn_index_dwi : index_dwi scnBvecs 10 = [1, 2, 3, 5, 6, 7, 8] := by
  norm_num [index_dwi, scnBvecs, effBvecs, isB0, List.range_succ, List.filter_append]

/-- A 3-volume series whose first volume is DWI followed by two b0 volumes:
the input on which the renaming step of lines 393-399 destroys data. -/
def triBvecs : List (List ℚ) := [[1,0,0],[0,0,0],[0,0,0]]

lemma tri_index_b0 : index_b0 triBvecs 3 = [1, 2] := by
  norm_num [index_b0, triBvecs, effBvecs, isB0, List.range_succ, List.filter_append]

/-- A 2-volume series with all gradients zero: `n_dwi = 0`. -/
def zeroDwiBvecs : List (List ℚ) := [[0,0,0],[0,0,0]]

lemma zeroDwi_index_dwi : index_dwi zeroDwiBvecs 2 = [] := by
  norm_num [index_dwi, zeroDwiBvecs, effBvecs, isB0, List.range_succ, List.filter_append]

lemma oneZero_index_dwi : index_dwi [[0,0,0]] 1 = [] := by
  norm_num [index_dwi, effBvecs, isB0, List.range_succ, List.filter_append]

/-- A "3×n" gradient table: 3 rows of width 2, i.e. two volumes written
column-wise.  Its first row has width 2 ≠ 3, so the classifier transposes. -/
def wideBvecs : List (List ℚ) := [[1,0],[0,0],[0,0]]

lemma wide_index_b0 : index_b0 wideBvecs 2 = [1] := by
  norm_num [index_b0, wideBvecs, effBvecs, isB0, pyZipStar, minRowLen,
    List.range_succ, List.filter_append]

lemma wide_index_dwi : index_dwi wideBvecs 2 = [0] := by
  norm_num [index_dwi, wideBvecs, effBvecs, isB0, pyZipStar, minRowLen,
    List.range_succ, List.filter_append]

/-- A 2-volume series: b0 at index 0, DWI at index 1. -/
def smallBvecs : List (List ℚ) := [[0,0,0],[1,0,0]]

lemma small_index_b0 : index_b0 smallBvecs 2 = [0] := by
  norm_num [index_b0, smallBvecs, effBvecs, isB0, List.range_succ, List.filter_append]

lemma small_index_dwi : index_dwi smallBvecs 2 = [1] := by
  norm_num [index_dwi, smallBvecs, effBvecs, isB0, List.range_succ, List.filter_append]

/-! ## The square-root form of the b0 test -/

lemma sumSq_cast (l : List ℚ) :
    (((l.map (fun x => x ^ 2)).sum : ℚ) : ℝ) = (l.map (fun (x : ℚ) => ((x : ℝ)) ^ 2)).sum := by
  induction l with
  | nil => simp
  | cons a tl ih =>
    simp only [List.map_cons, List.sum_cons, Rat.cast_add, Rat.cast_pow]
    rw [ih]

/-- `sqrt(Σ xᵢ²) < 0.01` (line 258, in `ℝ`) is equivalent to the rational
comparison `Σ xᵢ² < 1/10000` used by `isB0`. -/
lemma sumSq_sqrt_iff (v : List ℚ) :
    (Real.sqrt ((v.map (fun (x : ℚ) => ((x : ℝ)) ^ 2)).sum) < 1 / 100)
      ↔ (v.map (fun x => x ^ 2)).sum < 1 / 10000 := by
  rw [Real.sqrt_lt' (by norm_num : (0:ℝ) < 1 / 100), ← sumSq_cast]
  have h : ((1:ℝ) / 100) ^ 2 = ((1 / 10000 : ℚ) : ℝ) := by norm_num
  rw [h]
  exact_mod_cast Iff.rfl

lemma isB0_iff_sqrt (v : List ℚ) :
    isB0 v = true ↔ Real.sqrt ((v.map (fun (x : ℚ) => ((x : ℝ)) ^ 2)).sum) < 1 / 100 := by
  rw [isB0, decide_eq_true_eq, sumSq_sqrt_iff]

/-! ## The claims -/

/-- Claim C4: for every `index_dwi` and group size > 0, the group builder of
lines 304-316 produces `floor(n_dwi / group_size)` full groups of exactly
`group_size` elements each, plus one extra trailing group of size
`n_dwi mod group_size` exactly when that remainder is nonzero, and the
concatenation of all groups, in order, is `index_dwi` itself. -/
theorem C4_group_builder (index_dwi : List ℕ) (gs : ℕ) (hgs : 0 < gs) :
    (group_indexes index_dwi gs).length
        = index_dwi.length / gs + (if index_dwi.length % gs > 0 then 1 else 0)
    ∧ (∀ i < index_dwi.length / gs,
        ((group_indexes index_dwi gs).getD i []).length = gs)
    ∧ (index_dwi.length % gs > 0 →
        ((group_indexes index_dwi gs).getD (index_dwi.length / gs) []).length
          = index_dwi.length % gs)
    ∧ (group_indexes index_dwi gs).flatten = index_dwi := by
  refine ⟨?_, ?_, ?_, group_indexes_flatten index_dwi gs hgs⟩
  · rw [group_indexes]
    by_cases hr : index_dwi.length % gs > 0 <;> simp [hr]
  · intro i hi
    rw [group_indexes_getD_lt index_dwi gs i hi]
    exact full_group_length index_dwi gs i hi
  · intro hr
    rw [group_indexes_getD_rem index_dwi gs hr]
    rw [List.length_drop]
    have := Nat.mod_le index_dwi.length gs
    omega

/-- Witness for C4 at end-to-end scenario 1 (`dwi_indices = [1,2,3,5,6,7,8]`,
group size 3): three groups `[1,2,3]`, `[5,6,7]`, `[8]`. -/
theorem C4_group_builder_witness :
    (group_indexes [1,2,3,5,6,7,8] 3).length
        = ([1,2,3,5,6,7,8] : List ℕ).length / 3
          + (if ([1,2,3,5,6,7,8] : List ℕ).length % 3 > 0 then 1 else 0)
    ∧ (∀ i < ([1,2,3,5,6,7,8] : List ℕ).length / 3,
        ((group_indexes [1,2,3,5,6,7,8] 3).getD i []).length = 3)
    ∧ (([1,2,3,5,6,7,8] : List ℕ).length % 3 > 0 →
        ((group_indexes [1,2,3,5,6,7,8] 3).getD
            (([1,2,3,5,6,7,8] : List ℕ).length / 3) []).length
          = ([1,2,3,5,6,7,8] : List ℕ).length % 3)
    ∧ (group_indexes [1,2,3,5,6,7,8] 3).flatten = [1,2,3,5,6,7,8] :=
  C4_group_builder [1,2,3,5,6,7,8] 3 (by decide)

/-- Claim C5: for a well-formed (nonempty, width-3-rows) gradient table with
`T = nt` rows, the classifier of lines 253-263 outputs `index_b0` and
`index_dwi` that are disjoint, strictly increasing, and partition `0..nt-1`;
a time index lands in `index_b0` exactly when the Euclidean norm of its
gradient vector is strictly below 0.01. -/
theorem C5_classifier (bvecs : List (List ℚ)) (nt : ℕ)
    (hne : bvecs ≠ []) (h3 : ∀ v ∈ bvecs, v.length = 3) (hnt : nt = bvecs.length) :
    (∀ i, (i ∈ index_b0 bvecs nt ∨ i ∈ index_dwi bvecs nt) ↔ i < nt)
    ∧ (∀ i, i ∈ index_b0 bvecs nt → i ∉ index_dwi bvecs nt)
    ∧ (index_b0 bvecs nt).Pairwise (· < ·)
    ∧ (index_dwi bvecs nt).Pairwise (· < ·)
    ∧ (∀ i, i < nt →
        (i ∈ index_b0 bvecs nt
          ↔ Real.sqrt (((bvecs.getD i []).map (fun (x : ℚ) => ((x : ℝ)) ^ 2)).sum)
              < 1 / 100)) := by
  have hw : (bvecs.headD []).length = 3 := by
    cases bvecs with
    | nil => exact absurd rfl hne
    | cons r tl => exact h3 r (List.mem_cons_self r tl)
  have heff : effBvecs bvecs = bvecs := by rw [effBvecs, if_pos hw]
  refine ⟨fun i => index_partition bvecs nt i, fun i => index_disjoint bvecs nt i,
    index_b0_pairwise bvecs nt, index_dwi_pairwise bvecs nt, ?_⟩
  intro i hi
  rw [mem_index_b0, heff, isB0_iff_sqrt]
  simp [hi]

/-- Witness for C5 at the two-volume table `[[0,0,0],[1,0,0]]`. -/
theorem C5_classifier_witness :
    (∀ i, (i ∈ index_b0 smallBvecs 2 ∨ i ∈ index_dwi smallBvecs 2) ↔ i < 2)
    ∧ (∀ i, i ∈ index_b0 smallBvecs 2 → i ∉ index_dwi smallBvecs 2)
    ∧ (index_b0 smallBvecs 2).Pairwise (· < ·)
    ∧ (index_dwi smallBvecs 2).Pairwise (· < ·)
    ∧ (∀ i, i < 2 →
        (i ∈ index_b0 smallBvecs 2
          ↔ Real.sqrt (((smallBvecs.getD i []).map (fun (x : ℚ) => ((x : ℝ)) ^ 2)).sum)
              < 1 / 100)) :=
  C5_classifier smallBvecs 2 (by simp [smallBvecs])
    (by intro v hv; simp only [smallBvecs, List.mem_cons, List.not_mem_nil, or_false] at hv
        rcases hv with h | h <;> subst h <;> rfl)
    rfl

/-- Claim C3: for a series with at least one b0 and at least one DWI volume,
if the first DWI index `d` is nonzero the b0-pass target (lines 363-371) is
the volume at time index `d - 1` — the index immediately preceding the first
DWI volume — and that index is itself a b0 index; otherwise the target is the
volume at `index_b0[0]`. -/
theorem C3_b0_target (bvecs : List (List ℚ)) (nt : ℕ)
    (hb0 : index_b0 bvecs nt ≠ []) (hdwi : index_dwi bvecs nt ≠ []) :
    b0PassTarget (index_b0 bvecs nt) (index_dwi bvecs nt)
        = some (if (index_dwi bvecs nt).headD 0 ≠ 0
                then (index_dwi bvecs nt).headD 0 - 1
                else (index_b0 bvecs nt).headD 0)
    ∧ ((index_dwi bvecs nt).headD 0 ≠ 0 →
        (index_dwi bvecs nt).headD 0 - 1 ∈ index_b0 bvecs nt) := by
  cases hdw : index_dwi bvecs nt with
  | nil => exact absurd hdw hdwi
  | cons d rest =>
    have hhead : (index_dwi bvecs nt).head? = some d := by rw [hdw]; rfl
    simp only [List.headD_cons]
    by_cases hd : d = 0
    · subst hd
      simp only [b0PassTarget, List.head?_cons, ne_eq, not_true_eq_false, if_false,
        reduceIte]
      cases hb : index_b0 bvecs nt with
      | nil => exact absurd hb hb0
      | cons b btl => exact ⟨by simp, by simp⟩
    · obtain ⟨tail, htail⟩ := index_b0_prefix bvecs nt d hhead
      have hdpos : 0 < d := Nat.pos_of_ne_zero hd
      have hget : (index_b0 bvecs nt)[d - 1]? = some (d - 1) := by
        rw [htail,
          List.getElem?_append_left (by rw [List.length_range]; omega),
          List.getElem?_range (by omega)]
      constructor
      · simp only [b0PassTarget, List.head?_cons, hd, ite_not, if_false, reduceIte]
        exact hget
      · intro _
        rw [htail]
        exact List.mem_append_left tail (List.mem_range.mpr (by omega))

/-- Witness for C3 at scenario 1: first DWI index is 1, so the target is time
index 0, a b0 index. -/
theorem C3_b0_target_witness :
    b0PassTarget (index_b0 scnBvecs 10) (index_dwi scnBvecs 10)
        = some (if (index_dwi scnBvecs 10).headD 0 ≠ 0
                then (index_dwi scnBvecs 10).headD 0 - 1
                else (index_b0 scnBvecs 10).headD 0)
    ∧ ((index_dwi scnBvecs 10).headD 0 ≠ 0 →
        (index_dwi scnBvecs 10).headD 0 - 1 ∈ index_b0 scnBvecs 10) :=
  C3_b0_target scnBvecs 10 (by rw [scn_index_b0]; decide) (by rw [scn_index_dwi]; decide)

/-- Claim C1 is false on the code: at scenario 1 (b0 indices `[0,4,9]`, DWI
indices `[1,…,8]`, group size 3, one slice) the bridging loop copies the
transform of DWI time index 8 — the group-2 estimate — onto b0 time index 0,
whereas the b0 time index nearest (by index distance) to the last DWI index
is 9, whose "already-expanded transform" does not even exist: `mat_final`
holds no entry for any b0 time index before bridging. -/
theorem C1_bridge_claim_counterexample :
    index_b0 scnBvecs 10 = [0, 4, 9]
    ∧ index_dwi scnBvecs 10 = [1, 2, 3, 5, 6, 7, 8]
    ∧ specBridgeSource [0, 4, 9] [1, 2, 3, 5, 6, 7, 8] = 9
    ∧ bridgeB0 1 [0, 4, 9] [1, 2, 3, 5, 6, 7, 8]
        (expandGroups 1 (group_indexes [1, 2, 3, 5, 6, 7, 8] 3) emptyMat) 0 0
        = some (MatName.dwigroup 2 0)
    ∧ expandGroups 1 (group_indexes [1, 2, 3, 5, 6, 7, 8] 3) emptyMat
        (specBridgeSource [0, 4, 9] [1, 2, 3, 5, 6, 7, 8]) 0 = none :=
  ⟨scn_index_b0, scn_index_dwi, by decide, by decide, by decide⟩

/-- Claim C1 (amended): after group expansion, the transform copied to every
b0 time index (for all slices `z < nz`) is the already-expanded transform of
the *DWI* time index whose position is nearest, by index distance (with
`np.argmin`'s first-minimum tie-break), to the *last element of b0_indices* —
lines 388-391. -/
theorem C1_bridge_amended (bvecs : List (List ℚ)) (nt gs nz : ℕ)
    (hdwi : index_dwi bvecs nt ≠ [])
    (t z : ℕ) (ht : t ∈ index_b0 bvecs nt) (hz : z < nz) :
    bridgeB0 nz (index_b0 bvecs nt) (index_dwi bvecs nt)
        (expandGroups nz (group_indexes (index_dwi bvecs nt) gs) emptyMat) t z
      = expandGroups nz (group_indexes (index_dwi bvecs nt) gs) emptyMat
          (codeBridgeSource (index_b0 bvecs nt) (index_dwi bvecs nt)) z
    ∧ codeBridgeSource (index_b0 bvecs nt) (index_dwi bvecs nt) ∈ index_dwi bvecs nt
    ∧ (∀ e ∈ index_dwi bvecs nt,
        idxDist (codeBridgeSource (index_b0 bvecs nt) (index_dwi bvecs nt))
            (lastIndex (index_b0 bvecs nt))
          ≤ idxDist e (lastIndex (index_b0 bvecs nt))) := by
  have hmem := codeBridgeSource_mem (index_b0 bvecs nt) (index_dwi bvecs nt) hdwi
  have hnotb0 : codeBridgeSource (index_b0 bvecs nt) (index_dwi bvecs nt)
      ∉ index_b0 bvecs nt := fun hmem0 => index_disjoint bvecs nt _ hmem0 hmem
  refine ⟨?_, hmem, codeBridgeSource_min _ _ hdwi⟩
  rw [bridgeB0_apply _ _ _ _ hnotb0, if_pos ⟨ht, hz⟩]

/-- Witness for the amended C1 at scenario 1, b0 time index 0, slice 0. -/
theorem C1_bridge_amended_witness :
    bridgeB0 1 (index_b0 scnBvecs 10) (index_dwi scnBvecs 10)
        (expandGroups 1 (group_indexes (index_dwi scnBvecs 10) 3) emptyMat) 0 0
      = expandGroups 1 (group_indexes (index_dwi scnBvecs 10) 3) emptyMat
          (codeBridgeSource (index_b0 scnBvecs 10) (index_dwi scnBvecs 10)) 0
    ∧ codeBridgeSource (index_b0 scnBvecs 10) (index_dwi scnBvecs 10)
        ∈ index_dwi scnBvecs 10
    ∧ (∀ e ∈ index_dwi scnBvecs 10,
        idxDist (codeBridgeSource (index_b0 scnBvecs 10) (index_dwi scnBvecs 10))
            (lastIndex (index_b0 scnBvecs 10))
          ≤ idxDist e (lastIndex (index_b0 scnBvecs 10))) :=
  C1_bridge_amended scnBvecs 10 3 1 (by rw [scn_index_dwi]; decide)
    0 0 (by rw [scn_index_b0]; decide) (by decide)

/-- Claim C6: for a series with at least one b0 and at least one DWI volume
(and positive group size), `mat_final` after group expansion (lines 383-386)
and b0 bridging (lines 388-391) holds a transform exactly at the keys
`{0..nt-1} × {0..nz-1}`: no gaps, no entries outside the grid. -/
theorem C6_domain_coverage (bvecs : List (List ℚ)) (nt gs nz : ℕ) (hgs : 0 < gs)
    (_hb0 : index_b0 bvecs nt ≠ []) (hdwi : index_dwi bvecs nt ≠ []) (t z : ℕ) :
    (bridgeB0 nz (index_b0 bvecs nt) (index_dwi bvecs nt)
        (expandGroups nz (group_indexes (index_dwi bvecs nt) gs) emptyMat) t z).isSome
      ↔ (t < nt ∧ z < nz) := by
  have hmem := codeBridgeSource_mem (index_b0 bvecs nt) (index_dwi bvecs nt) hdwi
  have hnotb0 : codeBridgeSource (index_b0 bvecs nt) (index_dwi bvecs nt)
      ∉ index_b0 bvecs nt := fun hmem0 => index_disjoint bvecs nt _ hmem0 hmem
  rw [bridgeB0_apply _ _ _ _ hnotb0]
  by_cases hb : t ∈ index_b0 bvecs nt ∧ z < nz
  · rw [if_pos hb, expandGroups_isSome]
    have htnt : t < nt := ((mem_index_b0 bvecs nt t).mp hb.1).1
    simp [group_indexes_mem_flatten _ _ hgs, hmem, hb.2, htnt, emptyMat]
  · rw [if_neg hb, expandGroups_isSome]
    simp only [group_indexes_mem_flatten _ _ hgs, emptyMat, Option.isSome_none,
      Bool.false_eq_true, or_false]
    constructor
    · rintro ⟨hd, hzz⟩
      exact ⟨((mem_index_dwi bvecs nt t).mp hd).1, hzz⟩
    · rintro ⟨htnt, hzz⟩
      rcases (index_partition bvecs nt t).mpr htnt with hmem0 | hmem1
      · exact absurd ⟨hmem0, hzz⟩ hb
      · exact ⟨hmem1, hzz⟩

/-- Witness for C6 at scenario 1, key (3, 0). -/
theorem C6_domain_coverage_witness :
    (bridgeB0 1 (index_b0 scnBvecs 10) (index_dwi scnBvecs 10)
        (expandGroups 1 (group_indexes (index_dwi scnBvecs 10) 3) emptyMat) 3 0).isSome
      ↔ (3 < 10 ∧ 0 < 1) :=
  C6_domain_coverage scnBvecs 10 3 1 (by decide)
    (by rw [scn_index_b0]; decide) (by rw [scn_index_dwi]; decide) 3 0

/-- Claim C2 fails on the code, which is a bug of the renaming loop of
lines 396-399: for the series `[[1,0,0],[0,0,0],[0,0,0]]` the classifier
yields `index_b0 = [1, 2]` (strictly increasing, `n_b0 = nt1 = 2`; one slice,
`nz1 = 1`).  The loop first moves rank 0's file `mat.T0` onto `mat.T1`,
*overwriting rank 1's not-yet-renamed file*, then moves that same content on
to `mat.T2`.  Afterwards `mat.T1` does not exist at all and `mat.T2` holds
rank 0's transform — the claim requires `mat.T1` to hold rank 0's transform
and `mat.T2` to hold rank 1's, and rank 1's estimate is lost entirely. -/
theorem C2_rename_code_eval :
    index_b0 triBvecs 3 = [1, 2]
    ∧ (renameB0 2 1 [1, 2] (b0StageInit 2 1)) 1 0 = none
    ∧ (renameB0 2 1 [1, 2] (b0StageInit 2 1)) 2 0 = some (MatName.b0group 0 0)
    ∧ (∀ t z, (renameB0 2 1 [1, 2] (b0StageInit 2 1)) t z ≠ some (MatName.b0group 1 0)) := by
  refine ⟨tri_index_b0, by decide, by decide, ?_⟩
  intro t z
  by_cases ht : t < 4
  · interval_cases t <;>
      · by_cases hz : z < 2
        · interval_cases z <;> decide
        · have hz2 : ¬ (z = 0) ∧ ¬ (z = 1) := by omega
          simp [renameB0, mvRow, b0StageInit, write, List.range_succ, hz2.1, hz2.2]
  · have ht2 : ¬ (t = 0) ∧ ¬ (t = 1) ∧ ¬ (t = 2) := by omega
    simp [renameB0, mvRow, b0StageInit, write, List.range_succ, ht2.1, ht2.2.1, ht2.2.2,
      show ¬ (t < 2) by omega]

/-- Claim C7 is false on the code: with every gradient zero (`n_dwi = 0`) the
script does not raise any `ConfigurationError` — it proceeds into the
DWI-stream stages, invoking the group-average registration (line 361), and
then dies with an uncaught `IndexError` reading `index_dwi[0]` on line 365. -/
theorem C7_counterexample :
    dmri_moco_events zeroDwiBvecs 2
        = [Event.dwiGroupRegistration, Event.pythonIndexError]
    ∧ Event.configError ∉ dmri_moco_events zeroDwiBvecs 2 := by
  rw [dmri_moco_events, zeroDwi_index_dwi]
  exact ⟨rfl, by decide⟩

/-- Claim C7 (amended): whenever the classifier yields `n_dwi = 0`, the
pipeline raises no `ConfigurationError`: the DWI-group registration call of
line 361 still runs, followed by an uncaught `IndexError` at the b0-target
selection of line 365. -/
theorem C7_amended (bvecs : List (List ℚ)) (nt : ℕ) (h : index_dwi bvecs nt = []) :
    dmri_moco_events bvecs nt = [Event.dwiGroupRegistration, Event.pythonIndexError]
    ∧ Event.configError ∉ dmri_moco_events bvecs nt := by
  rw [dmri_moco_events, h]
  exact ⟨rfl, by decide⟩

/-- Witness for the amended C7 at the one-volume all-zero table. -/
theorem C7_amended_witness :
    dmri_moco_events [[0,0,0]] 1 = [Event.dwiGroupRegistration, Event.pythonIndexError]
    ∧ Event.configError ∉ dmri_moco_events [[0,0,0]] 1 :=
  C7_amended [[0,0,0]] 1 oneZero_index_dwi

/-- Claim C8 is false on the code: on the 3×2 table `[[1,0],[0,0],[0,0]]`
(row width 2 ≠ 3) the classifier does not fail — it transposes the table
(lines 248-251, issuing only a warning) and classifies the transposed
columns, producing `index_b0 = [1]`, `index_dwi = [0]`. -/
theorem C8_counterexample :
    classifyOutcome wideBvecs 2 = ClassifierOutcome.ok [1] [0] true
    ∧ classifyOutcome wideBvecs 2 ≠ ClassifierOutcome.malformedGradientTable := by
  have hw : ¬ ((wideBvecs.headD []).length = 3) := by
    simp [wideBvecs]
  rw [classifyOutcome, if_neg hw, wide_index_b0, wide_index_dwi]
  exact ⟨rfl, by simp⟩

/-- Claim C8 (amended): for every vector-form table whose first row does not
have width 3, the classifier never fails with `MalformedGradientTable`; it
reinterprets (transposes) the table itself, after a warning, and classifies
the transposed rows. -/
theorem C8_amended (bvecs : List (List ℚ)) (nt : ℕ)
    (h : (bvecs.headD []).length ≠ 3) :
    classifyOutcome bvecs nt
        = ClassifierOutcome.ok (index_b0 bvecs nt) (index_dwi bvecs nt) true
    ∧ classifyOutcome bvecs nt ≠ ClassifierOutcome.malformedGradientTable
    ∧ (∀ i, i ∈ index_b0 bvecs nt
        ↔ i < nt ∧ isB0 ((pyZipStar bvecs).getD i []) = true) := by
  have heff : effBvecs bvecs = pyZipStar bvecs := by rw [effBvecs, if_neg h]
  refine ⟨by rw [classifyOutcome, if_neg h],
    by rw [classifyOutcome, if_neg h]; simp, ?_⟩
  intro i
  rw [mem_index_b0, heff]

/-- Witness for the amended C8 at the 3×2 table. -/
theorem C8_amended_witness :
    classifyOutcome wideBvecs 2
        = ClassifierOutcome.ok (index_b0 wideBvecs 2) (index_dwi wideBvecs 2) true
    ∧ classifyOutcome wideBvecs 2 ≠ ClassifierOutcome.malformedGradientTable
    ∧ (∀ i, i ∈ index_b0 wideBvecs 2
        ↔ i < 2 ∧ isB0 ((pyZipStar wideBvecs).getD i []) = true) :=
  C8_amended wideBvecs 2 (by simp [wideBvecs])

/-- Claim C9 is false on the code, which is a bug of lines 278-279: because
`bvals > 429 and bvals < 4000` compares a Python 2 *list* against *ints*
(constant, type-based results), `np.where` receives the scalars `False`
resp. `True`, so `index_b0` is always empty and `index_dwi` is always `[0]`.
At the table `[[500],[0]]`, b-value 500 lies inside the documented band
`429 < b < 4000` and b-value 0 outside it, so the classifier should return
`index_b0 = [0]`, `index_dwi = [1]`; the code returns `[]` and `[0]`. -/
theorem C9_scalar_code_eval :
    scalar_index_b0 [[500],[0]] = [] ∧ scalar_index_dwi [[500],[0]] = [0] :=
  ⟨rfl, rfl⟩

/-- Claim C10: of the three registration-engine invocations of the pipeline,
the two estimation passes (lines 353-376) run with interpolation `trilinear`
regardless of the configured kind, and only the final apply-only pass
(lines 416-424) uses the user-configured interpolation, restored from the
local saved on line 223. -/
theorem C10_interp_routing (param : MocoParam)
    (file_dwi b0_target fname_data_initial : String) :
    (dmri_moco_calls param file_dwi b0_target fname_data_initial).map
        (fun c => (c.todo, c.interp))
      = [("estimate_and_apply", "trilinear"), ("estimate_and_apply", "trilinear"),
         ("apply", param.interp)] := rfl

end SctDmriMoco
